import Mathlib

/-!
Verification of the Segment Queue Orchestrator of the orbitz-translator
repository (src/components/DatabaseBridge.tsx), against its natural-language
specification.

The TypeScript source is shallowly embedded:
* strings are Lean `String`s, manipulated through char-list helpers that model
  the JavaScript primitives used by the source (`trim`, `startsWith`,
  `replace`-of-a-leading-tag, `split(/\r?\n+/)`);
* the async consumer loop `processQueueLoop` is modelled twice, at two
  granularities built from the same per-item functions:
  - `drainQueue`: one full drain pass over a fixed queue, one recursive call
    per `while` iteration, with per-iteration oracles for the client status,
    the active voice style, the translation text accumulated during the two
    waits, the persistence outcome and the language setting;
  - a small-step machine (`step`/`run`) whose steps are the atomic synchronous
    blocks of the single-threaded host: a block runs from a resumption point
    to the next `await` suspension.  Actions model snapshot deliveries
    (poll or push), direct loop invocations, streamed transcript chunks and
    wait completions; this machine exhibits the interleavings the dedup,
    re-entrancy and disconnect claims quantify over.
* the two poll/timeout waits (lines 136-154) are modelled exactly as
  fuel-bounded poll loops over rational-valued observations, poll `k`
  happening at idealized time `250*k` ms (resp. `100*k` ms).
-/

namespace OrbitzTranslator

/-! ## Char-level string primitives (JavaScript semantics) -/

/-- Model of JavaScript `String.prototype.trim`: drop whitespace characters
from both ends. -/
def trimChars (cs : List Char) : List Char :=
  ((cs.dropWhile Char.isWhitespace).reverse.dropWhile Char.isWhitespace).reverse

/-- String wrapper for `trimChars`; models `s.trim()` in the source. -/
def trimStr (s : String) : String :=
  String.mk (trimChars s.data)

/-- Model of JavaScript `s.startsWith(p)`. -/
def strStartsWith (s p : String) : Bool :=
  p.data.isPrefixOf s.data

/-- Drop the first `n` characters of a string; models removing a matched
leading tag (JavaScript `replace(tag, '')` when `s.startsWith(tag)`). -/
def strDrop (s : String) (n : Nat) : String :=
  String.mk (s.data.drop n)

/-- Prepend a character to the first piece of a non-empty piece list
(used while splitting text). -/
def consHead (c : Char) : List (List Char) → List (List Char)
  | [] => [[c]]
  | p :: ps => (c :: p) :: ps

/-- Model of JavaScript `text.split(/\r?\n+/)` at the char-list level.
The flag is true while the scan sits inside a `\n`-run that has already been
consumed as part of the current separator (the greedy `\n+`); a leading `\r`
immediately followed by `\n` is consumed with the separator. -/
def splitGo : Bool → List Char → List (List Char)
  | _, [] => [[]]
  | skip, [c] =>
    if c = '\n' then
      if skip then splitGo true [] else [] :: splitGo true []
    else consHead c (splitGo false [])
  | skip, c :: c2 :: cs =>
    if c = '\n' then
      if skip then splitGo true (c2 :: cs) else [] :: splitGo true (c2 :: cs)
    else if c = '\r' then
      if c2 = '\n' then [] :: splitGo true cs
      else consHead c (splitGo false (c2 :: cs))
    else
      consHead c (splitGo false (c2 :: cs))

/-- The pieces of `text.split(/\r?\n+/)`. -/
def splitNewlines (cs : List Char) : List (List Char) :=
  splitGo false cs

/-- Trim every piece and keep the non-empty ones — the `.map(t => t.trim())
.filter(t => t.length > 0)` tail of `segmentText`. -/
def cleanPieces (l : List (List Char)) : List (List Char) :=
  (l.map trimChars).filter (fun p => p.length > 0)

/-- Model of `segmentText` (DatabaseBridge.tsx lines 26-29): empty input gives
no segments, otherwise split on `/\r?\n+/`, trim each piece, drop empties. -/
def segmentText (text : String) : List String :=
  if text = "" then []
  else (cleanPieces (splitNewlines text.data)).map String.mk

/-- Spec-side paragraph splitter, following the specification's words: split
the snapshot text on one-or-more newline boundaries, trim each piece, drop
the empty pieces.  Splitting at every single newline character and then
dropping empty trimmed pieces realizes the one-or-more collapse. -/
def splitChar : List Char → List (List Char)
  | [] => [[]]
  | c :: cs => if c = '\n' then [] :: splitChar cs else consHead c (splitChar cs)

/-- The specification's paragraph list for a snapshot text. -/
def paragraphsSpec (text : String) : List String :=
  (cleanPieces (splitChar text.data)).map String.mk

/-! ## Data model -/

/-- The six voice styles of `VoiceStyle` in src/lib/state.ts line 15. -/
inductive VoiceStyle where
  | natural | conversational | formal | enthusiastic | breathy | dramatic
deriving Repr, DecidableEq

/-- The fields of a transcript snapshot row used by DatabaseBridge. -/
structure Transcript where
  id : String
  full_transcript_text : String
  session_id : String
  user_id : String
deriving Repr, DecidableEq

/-- The queue item type `QueueItem` (DatabaseBridge.tsx lines 31-35): segment text, originating
snapshot (null for the synthetic filler), optional UI turn id. -/
structure QueueItem where
  text : String
  refData : Option Transcript
  turnId : Option String
deriving Repr, DecidableEq

/-- The synthetic filler enqueued after every third real segment
(line 213): literal text, no snapshot reference, no turn id. -/
def fillerItem : QueueItem :=
  { text := "(clears throat)", refData := none, turnId := none }

/-! ## Per-item processing (lines 101-168) -/

/-- Speaker-tag extraction at dispatch time (lines 105-111): a recognized
leading tag is stripped (drop the tag, trim) and selects the target channel,
otherwise the default channel with the text unchanged. -/
def stripSpeaker (rawText : String) : String × String :=
  if strStartsWith rawText "Male 1:" then ("Male 1", trimStr (strDrop rawText 7))
  else if strStartsWith rawText "Male 2:" then ("Male 2", trimStr (strDrop rawText 7))
  else if strStartsWith rawText "Female 1:" then ("Female 1", trimStr (strDrop rawText 9))
  else if strStartsWith rawText "Female 2:" then ("Female 2", trimStr (strDrop rawText 9))
  else ("default", rawText)

/-- Style wrapping at dispatch time (lines 113-123): the literal filler text
is exempt, otherwise the current style's stage directions wrap the text
(`natural` falls through the switch unchanged). -/
def scriptText (style : VoiceStyle) (textToSend : String) : String :=
  if textToSend = "(clears throat)" then textToSend
  else
    match style with
    | .breathy => "(soft inhale) " ++ textToSend ++ " ... (pause)"
    | .dramatic => "(slowly) " ++ textToSend ++ " ... (long pause)"
    | .enthusiastic => "(excitedly) " ++ textToSend
    | .formal => "(professionally) " ++ textToSend
    | .conversational => "(casually) " ++ textToSend
    | .natural => textToSend

/-- Observable events of the orchestrator: a snapshot handed to segmentation,
a channel send, completion of the arrival wait, completion of the drain wait,
and an attempted persistence of a result record (`ok` records whether the
insert succeeded; a failure is caught and logged). -/
inductive Event where
  | segmented (id : String) (segs : List String)
  | send (speaker text : String)
  | arrivalDone
  | drainDone
  | persistRec (meetingId userId originalText translatedText language : String) (ok : Bool)
deriving Repr, DecidableEq

/-- Commit gating (lines 156-168): a record is persisted exactly when the item
carries a snapshot reference and the trimmed translation buffer is non-empty;
the record stores the raw segment text and the trimmed buffer. -/
def recsFor (item : QueueItem) (buf lang : String) (ok : Bool) : List Event :=
  match item.refData with
  | some r =>
    if trimStr buf ≠ "" then
      [Event.persistRec r.session_id r.user_id item.text (trimStr buf) lang ok]
    else []
  | none => []

/-- Forgets whether a persistence attempt succeeded; used to state that a
persistence failure changes nothing but the attempt's own outcome. -/
def eraseOk : Event → Event
  | .persistRec a b c d e _ => .persistRec a b c d e true
  | e => e

/-! ## Model 1: one full drain pass over a fixed queue

`drainQueue env i q s` reproduces the `while` loop of `processQueueLoop`
(lines 95-170), one recursive call per iteration.  `i` numbers the
iterations; the `Env` oracles give, per iteration, the client status sampled
at the loop head, the voice style read at dispatch, the translation text that
the output listener accumulates into the buffer between the dispatch and the
persist check, the insert outcome and the language setting.  The two waits
always run to completion (possibly by timeout) and are recorded as events;
their internal polling is modelled separately by `arrivalWaitLoop` and
`drainWaitLoop`. -/

/-- Per-iteration ambient inputs of a drain pass. -/
structure Env where
  connected : Nat → Bool
  style : Nat → VoiceStyle
  translation : Nat → String
  persistOk : Nat → Bool
  language : Nat → String

/-- The orchestrator's own mutable cells: the active turn context
(`currentTurnIdRef`) and the translation buffer
(`currentTranslationBufferRef`). -/
structure OrchState where
  turnCtx : Option String
  buffer : String
deriving Repr, DecidableEq

/-- One full drain pass: returns the emitted events, the final orchestrator
state and the items left in the queue (non-empty only after a disconnect
abort). -/
def drainQueue (env : Env) : Nat → List QueueItem → OrchState → List Event × OrchState × List QueueItem
  | _, [], s => ([], s, [])
  | i, item :: rest, s =>
    if env.connected i = false then ([], s, item :: rest)
    else
      let p := stripSpeaker item.text
      let s1 : OrchState := ⟨item.turnId, s.buffer⟩
      let scripted := scriptText (env.style i) p.2
      if trimStr scripted = "" then drainQueue env (i + 1) rest s1
      else
        let recs := recsFor item (env.translation i) (env.language i) (env.persistOk i)
        let r := drainQueue env (i + 1) rest ⟨none, env.translation i⟩
        (Event.send p.1 scripted :: Event.arrivalDone :: Event.drainDone :: (recs ++ r.1),
          r.2.1, r.2.2)

/-! ## Segmentation and enqueueing (processNewData, lines 180-218) -/

/-- Enqueue the segments of an accepted snapshot in order (lines 189-215):
each segment becomes a queue item holding the raw segment text, the snapshot
and a fresh turn id; after every third real segment (cumulative count,
never reset) the synthetic filler is pushed immediately after it.  Returns
the queued items, the new cumulative count and the next fresh turn id. -/
def enqueueSegments (d : Transcript) : List String → Nat → Nat → List QueueItem × Nat × Nat
  | [], count, n => ([], count, n)
  | seg :: rest, count, n =>
    let count1 := count + 1
    let fill := if 0 < count1 ∧ count1 % 3 = 0 then [fillerItem] else []
    let r := enqueueSegments d rest count1 (n + 1)
    (⟨seg, some d, some (Nat.repr n)⟩ :: fill ++ r.1, r.2)

/-! ## The two bounded waits (lines 136-154)

Poll `k` happens at idealized elapsed time `250*k` ms (arrival wait) resp.
`100*k` ms (drain wait); the loop runs while the elapsed time is below the
15000 ms resp. 60000 ms budget and exits early once the observed playback
state satisfies the condition.  Audio timestamps and durations are modelled
as rationals.  Fuel 61 resp. 601 strictly exceeds the number of in-budget
polls, so the fuel never runs out before the time budget does. -/

/-- Arrival wait: poll the channel's end-of-queue timestamp until it exceeds
the pre-send baseline by more than 0.1 s, for at most 15 s. -/
def arrivalWaitLoop (baseline : ℚ) (obs : Nat → ℚ) : Nat → Nat → Bool
  | 0, _ => false
  | fuel + 1, k =>
    if 250 * k < 15000 then
      if baseline + 1 / 10 < obs k then true
      else arrivalWaitLoop baseline obs fuel (k + 1)
    else false

/-- The arrival wait run from its start. -/
def arrivalWait (baseline : ℚ) (obs : Nat → ℚ) : Bool :=
  arrivalWaitLoop baseline obs 61 0

/-- Drain wait: poll the channel's buffered duration until it is at or below
0.5 s, for at most 60 s. -/
def drainWaitLoop (obs : Nat → ℚ) : Nat → Nat → Bool
  | 0, _ => false
  | fuel + 1, k =>
    if 100 * k < 60000 then
      if obs k ≤ 1 / 2 then true
      else drainWaitLoop obs fuel (k + 1)
    else false

/-- The drain wait run from its start. -/
def drainWait (obs : Nat → ℚ) : Bool :=
  drainWaitLoop obs 601 0

/-! ## Model 2: small-step machine over suspension points

JavaScript is single-threaded: between two `await` suspension points the
loop body runs atomically, and snapshot deliveries, direct loop invocations
and streamed output chunks can only interleave at those points.  A machine
step is one such atomic block.  The consumer coroutine is either not
suspended (`Phase.idle`) or parked inside the waits of a dispatched item
(`Phase.waiting item`); both waits of an item and its persistence attempt
are completed by a single `Action.waitDone` resumption. -/

/-- Where the suspended consumer coroutine stands. -/
inductive Phase where
  | idle
  | waiting (item : QueueItem)
deriving Repr, DecidableEq

/-- The refs of DatabaseBridge plus the coroutine position: segment queue,
`isProcessingRef`, `lastProcessedIdRef`, `paragraphCountRef`, the turn-id
generator, `currentTurnIdRef`, `currentTranslationBufferRef`. -/
structure BridgeState where
  queue : List QueueItem
  isProcessing : Bool
  lastProcessedId : Option String
  paragraphCount : Nat
  nextTurnId : Nat
  turnCtx : Option String
  buffer : String
  phase : Phase
deriving Repr, DecidableEq

/-- The initial state of the component: everything empty, not processing. -/
def initState : BridgeState :=
  ⟨[], false, none, 0, 0, none, "", .idle⟩

/-- Result of running the loop synchronously from its head until it either
exits (queue empty or client disconnected) or dispatches an item and
suspends in that item's waits. -/
inductive SyncStop where
  | exited
  | suspended (item : QueueItem)
deriving Repr, DecidableEq

/-- Events, remaining queue, turn context and stop mode of one synchronous
run of the loop head. -/
structure SyncRes where
  events : List Event
  queue : List QueueItem
  turnCtx : Option String
  stop : SyncStop
deriving Repr, DecidableEq

/-- Synchronous execution of the `while` loop from its head (lines 95-134):
check the client status, peek the head item, set the turn context, strip the
speaker tag, style-wrap; drop empty-scripted items and continue, otherwise
send and suspend.  `conn` and `st` are the client status and voice style,
constant across the block since no other code can run meanwhile. -/
def syncGo (conn : Bool) (st : VoiceStyle) : List QueueItem → Option String → SyncRes
  | [], ctx => ⟨[], [], ctx, .exited⟩
  | item :: rest, ctx =>
    if conn = false then ⟨[], item :: rest, ctx, .exited⟩
    else
      let p := stripSpeaker item.text
      let ctx1 := item.turnId
      let scripted := scriptText st p.2
      if trimStr scripted = "" then syncGo conn st rest ctx1
      else ⟨[Event.send p.1 scripted], rest, ctx1, .suspended item⟩

/-- Lift `syncGo` to the full bridge state: on exit the `finally` clause
clears `isProcessing`; on dispatch the buffer is reset and the coroutine
parks in the item's waits. -/
def syncDrain (conn : Bool) (st : VoiceStyle) (s : BridgeState) : List Event × BridgeState :=
  let r := syncGo conn st s.queue s.turnCtx
  match r.stop with
  | .exited =>
    (r.events,
      { s with queue := r.queue, turnCtx := r.turnCtx, isProcessing := false, phase := .idle })
  | .suspended item =>
    (r.events,
      { s with queue := r.queue, turnCtx := r.turnCtx, buffer := "", phase := .waiting item })

/-- Entry of `processQueueLoop` (lines 90-92): a no-op while already processing,
otherwise set the flag and run the loop synchronously until it suspends or
exits. -/
def invokeLoop (conn : Bool) (st : VoiceStyle) (s : BridgeState) : List Event × BridgeState :=
  if s.isProcessing then ([], s)
  else syncDrain conn st { s with isProcessing := true }

/-- Resumption after the parked item's waits complete (lines 136-170): both
waits finish (by detection or timeout), the commit gate runs on the buffer
accumulated meanwhile, the turn context is cleared and the loop continues
from its head. -/
def resumeLoop (ok : Bool) (conn : Bool) (st : VoiceStyle) (lang : String)
    (s : BridgeState) : List Event × BridgeState :=
  match s.phase with
  | .idle => ([], s)
  | .waiting item =>
    let recs := recsFor item s.buffer lang ok
    let s1 := { s with phase := Phase.idle, turnCtx := none }
    let r := syncDrain conn st s1
    (Event.arrivalDone :: Event.drainDone :: (recs ++ r.1), r.2)

/-- Model of `processNewData` (lines 180-218): ignore empty text; ignore a snapshot
whose id equals the last processed id; otherwise remember the id, segment the
text and, when segments exist, enqueue them (with filler injection) and kick
the consumer loop. -/
def processNewData (d : Transcript) (conn : Bool) (st : VoiceStyle)
    (s : BridgeState) : List Event × BridgeState :=
  if d.full_transcript_text = "" then ([], s)
  else if s.lastProcessedId = some d.id then ([], s)
  else
    let s1 := { s with lastProcessedId := some d.id }
    let segs := segmentText d.full_transcript_text
    if 0 < segs.length then
      let eq := enqueueSegments d segs s1.paragraphCount s1.nextTurnId
      let s2 := { s1 with queue := s1.queue ++ eq.1, paragraphCount := eq.2.1,
                          nextTurnId := eq.2.2 }
      let r := invokeLoop conn st s2
      (Event.segmented d.id segs :: r.1, r.2)
    else (Event.segmented d.id segs :: [], s1)

/-- External stimuli of the bridge, each annotated with the ambient inputs
(client status, style, language) in force during the resulting synchronous
block: a snapshot delivery (poll tick or push notification), a direct
invocation of the consumer loop, a streamed translation chunk, and the
completion of a parked item's waits. -/
inductive Action where
  | deliver (d : Transcript) (conn : Bool) (st : VoiceStyle)
  | invoke (conn : Bool) (st : VoiceStyle)
  | chunk (text : String)
  | waitDone (ok : Bool) (conn : Bool) (st : VoiceStyle) (lang : String)
deriving Repr, DecidableEq

/-- One machine step. -/
def step (s : BridgeState) : Action → List Event × BridgeState
  | .deliver d conn st => processNewData d conn st s
  | .invoke conn st => invokeLoop conn st s
  | .chunk t => ([], { s with buffer := s.buffer ++ t })
  | .waitDone ok conn st lang => resumeLoop ok conn st lang s

/-- The event trace of a run. -/
def run (s : BridgeState) : List Action → List Event
  | [] => []
  | a :: as => (step s a).1 ++ run (step s a).2 as

/-- The state reached by a run. -/
def runState (s : BridgeState) : List Action → BridgeState
  | [] => s
  | a :: as => runState (step s a).2 as

/-! ## Derived observations and spec-side definitions -/

/-- Spec-side style table, following the claim's words: breathy gives
"(soft inhale) <text> ... (pause)", dramatic gives
"(slowly) <text> ... (long pause)", enthusiastic prefixes "(excitedly) ",
formal prefixes "(professionally) ", conversational prefixes "(casually) ",
natural dispatches the text unchanged. -/
def styleWrapSpec : VoiceStyle → String → String
  | .breathy, t => "(soft inhale) " ++ t ++ " ... (pause)"
  | .dramatic, t => "(slowly) " ++ t ++ " ... (long pause)"
  | .enthusiastic, t => "(excitedly) " ++ t
  | .formal, t => "(professionally) " ++ t
  | .conversational, t => "(casually) " ++ t
  | .natural, t => t

/-- Selects the channel sends of a trace. -/
def isSendEvt : Event → Bool
  | .send _ _ => true
  | _ => false

/-- The sends of a trace, in order. -/
def sendsOf (tr : List Event) : List Event :=
  tr.filter isSendEvt

/-- Whether the consumer coroutine is parked inside an item's waits. -/
def isOpen (s : BridgeState) : Bool :=
  match s.phase with
  | .idle => false
  | .waiting _ => true

/-- The `isProcessing` flag tracks exactly whether a loop instance is alive,
i.e. suspended in some item's waits. -/
def Inv (s : BridgeState) : Prop :=
  s.isProcessing = isOpen s

/-- Strict send/drain-wait alternation checker: a send may only occur when no
item is in flight, a drain-wait completion only when one is; all other events
are ignored. -/
def altOk : List Event → Bool → Bool
  | [], _ => true
  | .send _ _ :: tr, b => !b && altOk tr true
  | .drainDone :: tr, b => b && altOk tr false
  | _ :: tr, b => altOk tr b

/-- The in-flight flag left after scanning a trace. -/
def altEnd : List Event → Bool → Bool
  | [], b => b
  | .send _ _ :: tr, _ => altEnd tr true
  | .drainDone :: tr, _ => altEnd tr false
  | _ :: tr, b => altEnd tr b

/-- First-piece relation between the code-side and the spec-side split of the
same text: same head piece up to a trailing carriage return that the regex
separator consumed, and identical cleaned tails. -/
def HeadRel (A B : List (List Char)) : Prop :=
  ∃ a as b bs, A = a :: as ∧ B = b :: bs ∧ (b = a ∨ b = a ++ ['\r']) ∧
    cleanPieces as = cleanPieces bs

/-- Concrete snapshots and environments used in witnesses and
counterexamples. -/
def snapA : Transcript := ⟨"s1", "Hello", "m", "u"⟩

/-- A second snapshot with a different id. -/
def snapB : Transcript := ⟨"s2", "world", "m", "u"⟩

/-- A snapshot whose text segments into two paragraphs. -/
def snapAB : Transcript := ⟨"s1", "A\nB", "m", "u"⟩

/-- Constant drain environment: connected, natural style. -/
def envNat : Env :=
  ⟨fun _ => true, fun _ => VoiceStyle.natural, fun _ => "x", fun _ => true, fun _ => "en"⟩

/-- Constant drain environment: connected, dramatic style, translation
"hola", language "es". -/
def envDram : Env :=
  ⟨fun _ => true, fun _ => VoiceStyle.dramatic, fun _ => "hola", fun _ => true, fun _ => "es"⟩

/-! ## Lemmas: trimming and splitting -/

lemma dropWhile_ws_append_cr_of_nil {l : List Char}
    (h : l.dropWhile Char.isWhitespace = []) :
    (l ++ ['\r']).dropWhile Char.isWhitespace = [] := by
  induction l with
  | nil => simp [List.dropWhile]
  | cons a l ih =>
    rw [List.dropWhile_cons] at h
    rw [List.cons_append, List.dropWhile_cons]
    by_cases ha : a.isWhitespace = true
    · rw [if_pos ha] at h
      rw [if_pos ha]
      exact ih h
    · rw [if_neg ha] at h
      exact absurd h (by simp)

lemma dropWhile_ws_append_cr_of_ne_nil {l : List Char}
    (h : l.dropWhile Char.isWhitespace ≠ []) :
    (l ++ ['\r']).dropWhile Char.isWhitespace = l.dropWhile Char.isWhitespace ++ ['\r'] := by
  induction l with
  | nil => simp [List.dropWhile] at h
  | cons a l ih =>
    rw [List.dropWhile_cons] at h ⊢
    rw [List.cons_append, List.dropWhile_cons]
    by_cases ha : a.isWhitespace = true
    · rw [if_pos ha] at h ⊢
      rw [if_pos ha]
      exact ih h
    · rw [if_neg ha] at h ⊢
      rw [if_neg ha, List.cons_append]

lemma trimChars_append_cr (a : List Char) : trimChars (a ++ ['\r']) = trimChars a := by
  by_cases h : a.dropWhile Char.isWhitespace = []
  · unfold trimChars
    rw [h, dropWhile_ws_append_cr_of_nil h]
  · unfold trimChars
    rw [dropWhile_ws_append_cr_of_ne_nil h, List.reverse_append, List.reverse_singleton,
      List.singleton_append, List.dropWhile_cons, if_pos (by decide : Char.isWhitespace '\r')]

lemma cleanPieces_cons (p : List Char) (ps : List (List Char)) :
    cleanPieces (p :: ps) =
      if 0 < (trimChars p).length then trimChars p :: cleanPieces ps else cleanPieces ps := by
  simp only [cleanPieces, List.map_cons, List.filter_cons]
  by_cases h : 0 < (trimChars p).length <;> simp [h]

lemma cleanPieces_cons_nil (ps : List (List Char)) :
    cleanPieces ([] :: ps) = cleanPieces ps := by
  rw [cleanPieces_cons]
  rfl

lemma cleanPieces_cons_cr (ps : List (List Char)) :
    cleanPieces (['\r'] :: ps) = cleanPieces ps := by
  rw [cleanPieces_cons]
  rfl

lemma HeadRel.clean {A B : List (List Char)} (h : HeadRel A B) :
    cleanPieces A = cleanPieces B := by
  obtain ⟨a, as, b, bs, rfl, rfl, hb, ht⟩ := h
  rcases hb with rfl | rfl
  · rw [cleanPieces_cons, cleanPieces_cons, ht]
  · rw [cleanPieces_cons, cleanPieces_cons, ht, trimChars_append_cr]

lemma HeadRel.cons_head (c : Char) {A B : List (List Char)} (h : HeadRel A B) :
    HeadRel (consHead c A) (consHead c B) := by
  obtain ⟨a, as, b, bs, rfl, rfl, hb, ht⟩ := h
  refine ⟨c :: a, as, c :: b, bs, rfl, rfl, ?_, ht⟩
  rcases hb with rfl | rfl
  · exact Or.inl rfl
  · exact Or.inr rfl

lemma splitGo_true_nl (cs : List Char) :
    splitGo true ('\n' :: cs) = splitGo true cs := by
  cases cs <;> rfl

lemma splitGo_false_nl (cs : List Char) :
    splitGo false ('\n' :: cs) = [] :: splitGo true cs := by
  cases cs <;> rfl

lemma splitGo_cons_cr_nl (skip : Bool) (cs : List Char) :
    splitGo skip ('\r' :: '\n' :: cs) = [] :: splitGo true cs := rfl

lemma splitGo_cons_cr (skip : Bool) (cs : List Char) (h : cs.head? ≠ some '\n') :
    splitGo skip ('\r' :: cs) = consHead '\r' (splitGo false cs) := by
  match cs with
  | [] => rfl
  | c2 :: cs2 =>
    have h2 : c2 ≠ '\n' := by simpa using h
    show (if ('\r' : Char) = '\n' then _ else _) = _
    rw [if_neg (by decide : ¬ ('\r' : Char) = '\n'),
      if_pos (rfl : ('\r' : Char) = '\r'), if_neg h2]

lemma splitGo_cons_other (skip : Bool) (c : Char) (cs : List Char)
    (hn : c ≠ '\n') (hr : c ≠ '\r') :
    splitGo skip (c :: cs) = consHead c (splitGo false cs) := by
  match cs with
  | [] =>
    show (if c = '\n' then _ else _) = _
    rw [if_neg hn]
  | c2 :: cs2 =>
    show (if c = '\n' then _ else _) = _
    rw [if_neg hn, if_neg hr]

lemma splitChar_cons_nl (cs : List Char) : splitChar ('\n' :: cs) = [] :: splitChar cs := rfl

lemma splitChar_cons_other (c : Char) (cs : List Char) (h : c ≠ '\n') :
    splitChar (c :: cs) = consHead c (splitChar cs) := by
  show (if c = '\n' then _ else _) = _
  rw [if_neg h]

/-- Joint induction: the code's regex split and the spec's newline split are
head-related in normal mode, and produce the same cleaned pieces in
separator-skipping mode. -/
lemma splitGo_vs_splitChar :
    ∀ n (cs : List Char), cs.length ≤ n →
      HeadRel (splitGo false cs) (splitChar cs) ∧
        cleanPieces (splitGo true cs) = cleanPieces (splitChar cs) := by
  intro n
  induction n with
  | zero =>
    intro cs hle
    have hnil : cs = [] := List.length_eq_zero.mp (Nat.le_zero.mp hle)
    subst hnil
    exact ⟨⟨[], [], [], [], rfl, rfl, Or.inl rfl, rfl⟩, rfl⟩
  | succ n ih =>
    intro cs hle
    rcases cs with _ | ⟨c, cs'⟩
    · exact ⟨⟨[], [], [], [], rfl, rfl, Or.inl rfl, rfl⟩, rfl⟩
    · by_cases hc : c = '\n'
      · subst hc
        have h' := ih cs' (by simpa using hle)
        constructor
        · rw [splitGo_false_nl, splitChar_cons_nl]
          exact ⟨[], splitGo true cs', [], splitChar cs', rfl, rfl, Or.inl rfl, h'.2⟩
        · rw [splitGo_true_nl, splitChar_cons_nl, cleanPieces_cons_nil]
          exact h'.2
      · by_cases hr : c = '\r'
        · subst hr
          rcases cs' with _ | ⟨c2, cs''⟩
          · constructor
            · rw [splitGo_cons_cr _ _ (by simp), splitChar_cons_other _ _ (by decide)]
              exact HeadRel.cons_head '\r'
                ⟨[], [], [], [], rfl, rfl, Or.inl rfl, rfl⟩
            · rw [splitGo_cons_cr _ _ (by simp), splitChar_cons_other _ _ (by decide)]
              exact (HeadRel.cons_head '\r'
                (⟨[], [], [], [], rfl, rfl, Or.inl rfl, rfl⟩ :
                  HeadRel (splitGo false []) (splitChar []))).clean
          · by_cases hc2 : c2 = '\n'
            · subst hc2
              have h'' := ih cs'' (by simp at hle; omega)
              have hchar :
                  splitChar ('\r' :: '\n' :: cs'') = ['\r'] :: splitChar cs'' := by
                rw [splitChar_cons_other _ _ (by decide), splitChar_cons_nl]
                rfl
              constructor
              · rw [splitGo_cons_cr_nl, hchar]
                exact ⟨[], splitGo true cs'', ['\r'], splitChar cs'', rfl, rfl,
                  Or.inr (by simp), h''.2⟩
              · rw [splitGo_cons_cr_nl, hchar, cleanPieces_cons_nil, cleanPieces_cons_cr]
                exact h''.2
            · have hne : (c2 :: cs'').head? ≠ some '\n' := by simp [hc2]
              have h' := ih (c2 :: cs'') (by simpa using hle)
              constructor
              · rw [splitGo_cons_cr _ _ hne, splitChar_cons_other _ _ (by decide)]
                exact h'.1.cons_head '\r'
              · rw [splitGo_cons_cr _ _ hne, splitChar_cons_other _ _ (by decide)]
                exact (h'.1.cons_head '\r').clean
        · have h' := ih cs' (by simpa using hle)
          constructor
          · rw [splitGo_cons_other _ _ _ hc hr, splitChar_cons_other _ _ hc]
            exact h'.1.cons_head c
          · rw [splitGo_cons_other _ _ _ hc hr, splitChar_cons_other _ _ hc]
            exact (h'.1.cons_head c).clean

/-- The code's segmentation agrees with the specification's paragraph list on
every input. -/
lemma segmentText_agrees (text : String) : segmentText text = paragraphsSpec text := by
  by_cases h : text = ""
  · subst h
    rfl
  · unfold segmentText paragraphsSpec splitNewlines
    rw [if_neg h]
    exact congrArg (List.map String.mk)
      ((splitGo_vs_splitChar text.data.length text.data le_rfl).1.clean)

/-! ## Lemmas: one drain pass -/

lemma drainQueue_disconnect (env : Env) (i : Nat) (s : OrchState) (item : QueueItem)
    (rest : List QueueItem) (h : env.connected i = false) :
    drainQueue env i (item :: rest) s = ([], s, item :: rest) := by
  simp [drainQueue, h]

lemma drainQueue_drop (env : Env) (i : Nat) (s : OrchState) (item : QueueItem)
    (rest : List QueueItem) (h : env.connected i = true)
    (he : trimStr (scriptText (env.style i) (stripSpeaker item.text).2) = "") :
    drainQueue env i (item :: rest) s = drainQueue env (i + 1) rest ⟨item.turnId, s.buffer⟩ := by
  simp [drainQueue, h, he]

lemma drainQueue_dispatch (env : Env) (i : Nat) (s : OrchState) (item : QueueItem)
    (rest : List QueueItem) (h : env.connected i = true)
    (hne : trimStr (scriptText (env.style i) (stripSpeaker item.text).2) ≠ "") :
    drainQueue env i (item :: rest) s =
      (Event.send (stripSpeaker item.text).1 (scriptText (env.style i) (stripSpeaker item.text).2)
          :: Event.arrivalDone :: Event.drainDone
          :: (recsFor item (env.translation i) (env.language i) (env.persistOk i)
              ++ (drainQueue env (i + 1) rest ⟨none, env.translation i⟩).1),
        (drainQueue env (i + 1) rest ⟨none, env.translation i⟩).2) := by
  simp [drainQueue, h, hne]

lemma recsFor_none (tx : String) (tid : Option String) (buf lang : String) (ok : Bool) :
    recsFor ⟨tx, none, tid⟩ buf lang ok = [] := rfl

lemma recsFor_some (tx : String) (r : Transcript) (tid : Option String)
    (buf lang : String) (ok : Bool) :
    recsFor ⟨tx, some r, tid⟩ buf lang ok =
      if trimStr buf ≠ "" then
        [Event.persistRec r.session_id r.user_id tx (trimStr buf) lang ok]
      else [] := rfl

lemma recsFor_ne_nil_iff (item : QueueItem) (buf lang : String) (ok : Bool) :
    recsFor item buf lang ok ≠ [] ↔ item.refData.isSome = true ∧ trimStr buf ≠ "" := by
  obtain ⟨tx, rd, tid⟩ := item
  cases rd with
  | none => simp [recsFor_none]
  | some r =>
    rw [recsFor_some]
    by_cases hb : trimStr buf = "" <;> simp [hb]

lemma recsFor_map_eraseOk (item : QueueItem) (buf lang : String) (ok ok' : Bool) :
    (recsFor item buf lang ok).map eraseOk = (recsFor item buf lang ok').map eraseOk := by
  obtain ⟨tx, rd, tid⟩ := item
  cases rd with
  | none => rfl
  | some r =>
    rw [recsFor_some, recsFor_some]
    by_cases hb : trimStr buf = "" <;> simp [hb, eraseOk]

lemma drainQueue_persistOk_irrelevant (env : Env) (f : Nat → Bool) :
    ∀ (q : List QueueItem) (i : Nat) (s : OrchState),
      (drainQueue { env with persistOk := f } i q s).1.map eraseOk
          = (drainQueue env i q s).1.map eraseOk
        ∧ (drainQueue { env with persistOk := f } i q s).2 = (drainQueue env i q s).2 := by
  intro q
  induction q with
  | nil => intro i s; exact ⟨rfl, rfl⟩
  | cons item rest ih =>
    intro i s
    by_cases hc : env.connected i = false
    · rw [drainQueue_disconnect { env with persistOk := f } i s item rest hc,
        drainQueue_disconnect env i s item rest hc]
      exact ⟨rfl, rfl⟩
    · have hc' : env.connected i = true := by
        revert hc
        cases env.connected i <;> simp
      by_cases he : trimStr (scriptText (env.style i) (stripSpeaker item.text).2) = ""
      · rw [drainQueue_drop { env with persistOk := f } i s item rest hc' he,
          drainQueue_drop env i s item rest hc' he]
        exact ih (i + 1) _
      · rw [drainQueue_dispatch { env with persistOk := f } i s item rest hc' he,
          drainQueue_dispatch env i s item rest hc' he]
        refine ⟨?_, (ih (i + 1) ⟨none, env.translation i⟩).2⟩
        simp only [List.map_cons, List.map_append]
        rw [(ih (i + 1) ⟨none, env.translation i⟩).1,
          recsFor_map_eraseOk item (env.translation i) (env.language i) (f i) (env.persistOk i)]

lemma sendsOf_recsFor (item : QueueItem) (buf lang : String) (ok : Bool) :
    sendsOf (recsFor item buf lang ok) = [] := by
  obtain ⟨tx, rd, tid⟩ := item
  cases rd with
  | none => rfl
  | some r =>
    rw [recsFor_some]
    by_cases hb : trimStr buf = ""
    · rw [if_neg (by simp [hb])]
      rfl
    · rw [if_pos hb]
      rfl

/-- Dispatch order is queue order: on a fully connected drain pass, the send
trace is the order-preserving image of the queue, each item contributing its
style-wrapped text (or nothing when that text trims to empty). -/
lemma drainQueue_sends (env : Env) (hconn : ∀ j, env.connected j = true) :
    ∀ (q : List QueueItem) (i : Nat) (s : OrchState),
      sendsOf (drainQueue env i q s).1 =
        (List.enumFrom i q).filterMap (fun pr =>
          if trimStr (scriptText (env.style pr.1) (stripSpeaker pr.2.text).2) = "" then none
          else some (Event.send (stripSpeaker pr.2.text).1
            (scriptText (env.style pr.1) (stripSpeaker pr.2.text).2))) := by
  intro q
  induction q with
  | nil => intro i s; rfl
  | cons item rest ih =>
    intro i s
    have hcons : List.enumFrom i (item :: rest) = (i, item) :: List.enumFrom (i + 1) rest := rfl
    rw [hcons, List.filterMap_cons]
    by_cases he : trimStr (scriptText (env.style i) (stripSpeaker item.text).2) = ""
    · rw [drainQueue_drop _ _ _ _ _ (hconn i) he]
      simp only [he, if_pos]
      exact ih (i + 1) _
    · rw [drainQueue_dispatch _ _ _ _ _ (hconn i) he]
      simp only [he, if_neg, ite_false]
      show sendsOf (_ :: _ :: _ :: _) = _
      unfold sendsOf
      rw [List.filter_cons_of_pos (by rfl), List.filter_cons_of_neg (by simp [isSendEvt]),
        List.filter_cons_of_neg (by simp [isSendEvt]), List.filter_append]
      rw [show List.filter isSendEvt (recsFor item (env.translation i) (env.language i)
          (env.persistOk i)) = [] from sendsOf_recsFor _ _ _ _]
      rw [List.nil_append]
      exact congrArg _ (ih (i + 1) _)

/-! ## Lemmas: enqueueing -/

lemma enqueueSegments_count (d : Transcript) :
    ∀ (segs : List String) (count n : Nat),
      (enqueueSegments d segs count n).2.1 = count + segs.length := by
  intro segs
  induction segs with
  | nil => intro count n; simp [enqueueSegments]
  | cons seg rest ih =>
    intro count n
    simp only [enqueueSegments]
    rw [ih (count + 1) (n + 1)]
    simp
    omega

/-- Stripping the injected fillers recovers exactly the segment list, in
order: queue order is segmentation order. -/
lemma enqueueSegments_real (d : Transcript) :
    ∀ (segs : List String) (count n : Nat),
      ((enqueueSegments d segs count n).1.filter (fun it => it.refData.isSome)).map
          (fun it => it.text) = segs := by
  intro segs
  induction segs with
  | nil => intro count n; rfl
  | cons seg rest ih =>
    intro count n
    simp only [enqueueSegments]
    by_cases h3 : 0 < count + 1 ∧ (count + 1) % 3 = 0
    · rw [if_pos h3]
      show ((⟨seg, some d, some (Nat.repr n)⟩ :: fillerItem
          :: (enqueueSegments d rest (count + 1) (n + 1)).1).filter _).map _ = _
      rw [List.filter_cons_of_pos (by rfl), List.filter_cons_of_neg (by simp [fillerItem]),
        List.map_cons, ih (count + 1) (n + 1)]
    · rw [if_neg h3]
      show ((⟨seg, some d, some (Nat.repr n)⟩
          :: (enqueueSegments d rest (count + 1) (n + 1)).1).filter _).map _ = _
      rw [List.filter_cons_of_pos (by rfl), List.map_cons, ih (count + 1) (n + 1)]

lemma enumFrom_flatMap_shift {α β : Type} :
    ∀ (l : List α) (k : Nat) (f : Nat × α → List β),
      (List.enumFrom k l).flatMap f
        = (List.enumFrom 0 l).flatMap (fun pr => f (k + pr.1, pr.2)) := by
  intro l
  induction l with
  | nil => intro k f; rfl
  | cons a l ih =>
    intro k f
    show f (k, a) ++ (List.enumFrom (k + 1) l).flatMap f = _
    rw [ih (k + 1) f]
    show _ = f (k + 0, a) ++ (List.enumFrom 1 l).flatMap (fun pr => f (k + pr.1, pr.2))
    rw [ih 1 (fun pr => f (k + pr.1, pr.2))]
    rw [Nat.add_zero]
    refine congrArg (f (k, a) ++ ·) (List.flatMap_congr ?_)
    intro pr _
    show f (k + 1 + pr.1, pr.2) = f (k + (1 + pr.1), pr.2)
    exact congrArg (fun m => f (m, pr.2)) (by omega)

/-- Closed form of the enqueue step: each segment in order, a fresh turn id,
the snapshot reference, and the filler immediately after every segment whose
cumulative count is a multiple of three. -/
lemma enqueueSegments_closed (d : Transcript) :
    ∀ (segs : List String) (count n : Nat),
      (enqueueSegments d segs count n).1 =
        (List.enumFrom 0 segs).flatMap (fun pr =>
          ⟨pr.2, some d, some (Nat.repr (n + pr.1))⟩
            :: (if (count + pr.1 + 1) % 3 = 0 then [fillerItem] else [])) := by
  intro segs
  induction segs with
  | nil => intro count n; rfl
  | cons seg rest ih =>
    intro count n
    have hrhs :
        (List.enumFrom 0 (seg :: rest)).flatMap (fun pr =>
            (⟨pr.2, some d, some (Nat.repr (n + pr.1))⟩ : QueueItem)
              :: (if (count + pr.1 + 1) % 3 = 0 then [fillerItem] else []))
          = (⟨seg, some d, some (Nat.repr n)⟩ : QueueItem)
            :: ((if (count + 1) % 3 = 0 then [fillerItem] else [])
              ++ (List.enumFrom 0 rest).flatMap (fun pr =>
                (⟨pr.2, some d, some (Nat.repr (n + 1 + pr.1))⟩ : QueueItem)
                  :: (if (count + 1 + pr.1 + 1) % 3 = 0 then [fillerItem] else []))) := by
      rw [show List.enumFrom 0 (seg :: rest) = (0, seg) :: List.enumFrom 1 rest from rfl,
        List.flatMap_cons, enumFrom_flatMap_shift rest 1 _]
      show ((⟨seg, some d, some (Nat.repr (n + 0))⟩ : QueueItem)
          :: (if (count + 0 + 1) % 3 = 0 then [fillerItem] else [])) ++ _ = _
      rw [List.cons_append]
      simp only [Nat.add_zero]
      refine congrArg₂ _ rfl (congrArg₂ _ rfl (List.flatMap_congr ?_))
      intro pr _
      show (⟨pr.2, some d, some (Nat.repr (n + (1 + pr.1)))⟩ : QueueItem)
          :: (if (count + (1 + pr.1) + 1) % 3 = 0 then [fillerItem] else []) = _
      have e1 : n + (1 + pr.1) = n + 1 + pr.1 := by omega
      have e2 : count + (1 + pr.1) + 1 = count + 1 + pr.1 + 1 := by omega
      rw [e1, e2]
    rw [hrhs]
    simp only [enqueueSegments]
    rw [ih (count + 1) (n + 1), List.cons_append]
    refine congrArg₂ _ rfl (congrArg₂ _ ?_ rfl)
    exact if_congr (by omega) rfl rfl

/-! ## Lemmas: machine invariant and single-flight alternation -/

lemma altOk_append : ∀ (t1 t2 : List Event) (b : Bool),
    altOk (t1 ++ t2) b = (altOk t1 b && altOk t2 (altEnd t1 b)) := by
  intro t1
  induction t1 with
  | nil => intro t2 b; rfl
  | cons e tr ih =>
    intro t2 b
    cases e <;> simp [altOk, altEnd, ih, Bool.and_assoc]

lemma altEnd_append : ∀ (t1 t2 : List Event) (b : Bool),
    altEnd (t1 ++ t2) b = altEnd t2 (altEnd t1 b) := by
  intro t1
  induction t1 with
  | nil => intro t2 b; rfl
  | cons e tr ih =>
    intro t2 b
    cases e <;> simp [altEnd, ih]

lemma altOk_recsFor (item : QueueItem) (buf lang : String) (ok : Bool)
    (tr : List Event) (b : Bool) :
    altOk (recsFor item buf lang ok ++ tr) b = altOk tr b := by
  obtain ⟨tx, rd, tid⟩ := item
  cases rd with
  | none => rfl
  | some r =>
    rw [recsFor_some]
    by_cases hb : trimStr buf = ""
    · rw [if_neg (by simp [hb])]
      rfl
    · rw [if_pos hb]
      rfl

lemma altEnd_recsFor (item : QueueItem) (buf lang : String) (ok : Bool)
    (tr : List Event) (b : Bool) :
    altEnd (recsFor item buf lang ok ++ tr) b = altEnd tr b := by
  obtain ⟨tx, rd, tid⟩ := item
  cases rd with
  | none => rfl
  | some r =>
    rw [recsFor_some]
    by_cases hb : trimStr buf = ""
    · rw [if_neg (by simp [hb])]
      rfl
    · rw [if_pos hb]
      rfl

lemma syncGo_shape (conn : Bool) (st : VoiceStyle) :
    ∀ (q : List QueueItem) (ctx : Option String),
      ((syncGo conn st q ctx).events = [] ∧ (syncGo conn st q ctx).stop = .exited)
        ∨ ∃ sp tx item, (syncGo conn st q ctx).events = [Event.send sp tx]
            ∧ (syncGo conn st q ctx).stop = .suspended item := by
  intro q
  induction q with
  | nil => intro ctx; exact Or.inl ⟨rfl, rfl⟩
  | cons item rest ih =>
    intro ctx
    by_cases hc : conn = false
    · left
      constructor <;> simp [syncGo, hc]
    · have hc' : conn = true := by revert hc; cases conn <;> simp
      by_cases he : trimStr (scriptText st (stripSpeaker item.text).2) = ""
      · rw [show syncGo conn st (item :: rest) ctx = syncGo conn st rest item.turnId from by
          simp [syncGo, hc', he]]
        exact ih item.turnId
      · right
        exact ⟨(stripSpeaker item.text).1, scriptText st (stripSpeaker item.text).2, item,
          by simp [syncGo, hc', he], by simp [syncGo, hc', he]⟩

lemma syncDrain_spec (conn : Bool) (st : VoiceStyle) (s : BridgeState)
    (hproc : s.isProcessing = true) :
    altOk (syncDrain conn st s).1 false = true
    ∧ altEnd (syncDrain conn st s).1 false = isOpen (syncDrain conn st s).2
    ∧ Inv (syncDrain conn st s).2 := by
  rcases syncGo_shape conn st s.queue s.turnCtx with ⟨he, hs⟩ | ⟨sp, tx, item, he, hs⟩
  · simp only [syncDrain, hs, he]
    exact ⟨rfl, rfl, rfl⟩
  · simp only [syncDrain, hs, he]
    refine ⟨rfl, rfl, ?_⟩
    show s.isProcessing = true
    exact hproc

lemma invokeLoop_spec (conn : Bool) (st : VoiceStyle) (s : BridgeState) (hinv : Inv s) :
    altOk (invokeLoop conn st s).1 (isOpen s) = true
    ∧ altEnd (invokeLoop conn st s).1 (isOpen s) = isOpen (invokeLoop conn st s).2
    ∧ Inv (invokeLoop conn st s).2 := by
  unfold invokeLoop
  by_cases hp : s.isProcessing
  · rw [if_pos hp]
    exact ⟨rfl, rfl, hinv⟩
  · rw [if_neg hp]
    have hfalse : s.isProcessing = false := by revert hp; cases s.isProcessing <;> simp
    have hopen : isOpen s = false := by rw [← hinv]; exact hfalse
    rw [hopen]
    exact syncDrain_spec conn st { s with isProcessing := true } rfl

lemma resumeLoop_spec (ok conn : Bool) (st : VoiceStyle) (lang : String)
    (s : BridgeState) (hinv : Inv s) :
    altOk (resumeLoop ok conn st lang s).1 (isOpen s) = true
    ∧ altEnd (resumeLoop ok conn st lang s).1 (isOpen s) = isOpen (resumeLoop ok conn st lang s).2
    ∧ Inv (resumeLoop ok conn st lang s).2 := by
  cases hph : s.phase with
  | idle =>
    simp only [resumeLoop, hph]
    exact ⟨rfl, rfl, hinv⟩
  | waiting item =>
    have hopen : isOpen s = true := by simp [isOpen, hph]
    have hproc : s.isProcessing = true := by rw [hinv, hopen]
    have hspec := syncDrain_spec conn st { s with phase := Phase.idle, turnCtx := none } hproc
    simp only [resumeLoop, hph, hopen]
    refine ⟨?_, ?_, hspec.2.2⟩
    · show (true && altOk (recsFor item s.buffer lang ok ++ _) false) = true
      rw [Bool.true_and, altOk_recsFor]
      exact hspec.1
    · show altEnd (recsFor item s.buffer lang ok ++ _) false = _
      rw [altEnd_recsFor]
      exact hspec.2.1

lemma step_spec (s : BridgeState) (a : Action) (hinv : Inv s) :
    altOk (step s a).1 (isOpen s) = true
    ∧ altEnd (step s a).1 (isOpen s) = isOpen (step s a).2
    ∧ Inv (step s a).2 := by
  cases a with
  | chunk t => exact ⟨rfl, rfl, hinv⟩
  | invoke conn st => exact invokeLoop_spec conn st s hinv
  | waitDone ok conn st lang => exact resumeLoop_spec ok conn st lang s hinv
  | deliver d conn st =>
    simp only [step]
    by_cases h0 : d.full_transcript_text = ""
    · simp only [processNewData, if_pos h0]
      exact ⟨rfl, rfl, hinv⟩
    · by_cases hdup : s.lastProcessedId = some d.id
      · simp only [processNewData, if_neg h0, if_pos hdup]
        exact ⟨rfl, rfl, hinv⟩
      · by_cases hlen : 0 < (segmentText d.full_transcript_text).length
        · simp only [processNewData, if_neg h0, if_neg hdup, if_pos hlen]
          have hspec := invokeLoop_spec conn st
            { s with lastProcessedId := some d.id,
                     queue := s.queue ++ (enqueueSegments d (segmentText d.full_transcript_text)
                       s.paragraphCount s.nextTurnId).1,
                     paragraphCount := (enqueueSegments d (segmentText d.full_transcript_text)
                       s.paragraphCount s.nextTurnId).2.1,
                     nextTurnId := (enqueueSegments d (segmentText d.full_transcript_text)
                       s.paragraphCount s.nextTurnId).2.2 } hinv
          exact ⟨hspec.1, hspec.2.1, hspec.2.2⟩
        · simp only [processNewData, if_neg h0, if_neg hdup, if_neg hlen]
          exact ⟨rfl, rfl, hinv⟩

/-- Over any action sequence from an invariant state, the event trace
alternates sends and drain-wait completions strictly. -/
lemma run_altOk : ∀ (acts : List Action) (s : BridgeState), Inv s →
    altOk (run s acts) (isOpen s) = true := by
  intro acts
  induction acts with
  | nil => intro s _; rfl
  | cons a as ih =>
    intro s hinv
    show altOk ((step s a).1 ++ run (step s a).2 as) (isOpen s) = true
    rw [altOk_append, (step_spec s a hinv).1, (step_spec s a hinv).2.1, Bool.true_and]
    exact ih (step s a).2 (step_spec s a hinv).2.2

lemma invokeLoop_lastProcessedId (conn : Bool) (st : VoiceStyle) (s : BridgeState) :
    (invokeLoop conn st s).2.lastProcessedId = s.lastProcessedId := by
  unfold invokeLoop
  by_cases hp : s.isProcessing
  · rw [if_pos hp]
  · rw [if_neg hp]
    unfold syncDrain
    cases h : (syncGo conn st s.queue s.turnCtx).stop <;> simp [h]

/-! ## Lemmas: the two bounded waits -/

lemma arrivalWaitLoop_timeout (b : ℚ) (obs : Nat → ℚ) :
    ∀ (fuel k : Nat), 15000 ≤ 250 * k → arrivalWaitLoop b obs fuel k = false := by
  intro fuel k h
  cases fuel with
  | zero => rfl
  | succ f =>
    show (if 250 * k < 15000 then _ else false) = false
    rw [if_neg (by omega)]

lemma drainWaitLoop_timeout (obs : Nat → ℚ) :
    ∀ (fuel k : Nat), 60000 ≤ 100 * k → drainWaitLoop obs fuel k = false := by
  intro fuel k h
  cases fuel with
  | zero => rfl
  | succ f =>
    show (if 100 * k < 60000 then _ else false) = false
    rw [if_neg (by omega)]

lemma arrivalWaitLoop_iff (b : ℚ) (obs : Nat → ℚ) :
    ∀ (fuel k : Nat), 60 ≤ fuel + k →
      (arrivalWaitLoop b obs fuel k = true
        ↔ ∃ j, k ≤ j ∧ 250 * j < 15000 ∧ b + 1 / 10 < obs j) := by
  intro fuel
  induction fuel with
  | zero =>
    intro k hk
    constructor
    · intro h
      exact absurd h (by simp [arrivalWaitLoop])
    · rintro ⟨j, hkj, hj, _⟩
      omega
  | succ f ih =>
    intro k hk
    by_cases ht : 250 * k < 15000
    · by_cases hobs : b + 1 / 10 < obs k
      · show (if 250 * k < 15000 then _ else false) = true ↔ _
        rw [if_pos ht, if_pos hobs]
        exact ⟨fun _ => ⟨k, le_rfl, ht, hobs⟩, fun _ => rfl⟩
      · show (if 250 * k < 15000 then _ else false) = true ↔ _
        rw [if_pos ht, if_neg hobs, ih (k + 1) (by omega)]
        constructor
        · rintro ⟨j, hkj, hj, ho⟩
          exact ⟨j, by omega, hj, ho⟩
        · rintro ⟨j, hkj, hj, ho⟩
          rcases Nat.eq_or_lt_of_le hkj with rfl | hlt
          · exact absurd ho hobs
          · exact ⟨j, hlt, hj, ho⟩
    · show (if 250 * k < 15000 then _ else false) = true ↔ _
      rw [if_neg ht]
      constructor
      · intro h
        exact absurd h (by simp)
      · rintro ⟨j, hkj, hj, _⟩
        omega

lemma drainWaitLoop_iff (obs : Nat → ℚ) :
    ∀ (fuel k : Nat), 600 ≤ fuel + k →
      (drainWaitLoop obs fuel k = true
        ↔ ∃ j, k ≤ j ∧ 100 * j < 60000 ∧ obs j ≤ 1 / 2) := by
  intro fuel
  induction fuel with
  | zero =>
    intro k hk
    constructor
    · intro h
      exact absurd h (by simp [drainWaitLoop])
    · rintro ⟨j, hkj, hj, _⟩
      omega
  | succ f ih =>
    intro k hk
    by_cases ht : 100 * k < 60000
    · by_cases hobs : obs k ≤ 1 / 2
      · show (if 100 * k < 60000 then _ else false) = true ↔ _
        rw [if_pos ht, if_pos hobs]
        exact ⟨fun _ => ⟨k, le_rfl, ht, hobs⟩, fun _ => rfl⟩
      · show (if 100 * k < 60000 then _ else false) = true ↔ _
        rw [if_pos ht, if_neg hobs, ih (k + 1) (by omega)]
        constructor
        · rintro ⟨j, hkj, hj, ho⟩
          exact ⟨j, by omega, hj, ho⟩
        · rintro ⟨j, hkj, hj, ho⟩
          rcases Nat.eq_or_lt_of_le hkj with rfl | hlt
          · exact absurd ho hobs
          · exact ⟨j, hlt, hj, ho⟩
    · show (if 100 * k < 60000 then _ else false) = true ↔ _
      rw [if_neg ht]
      constructor
      · intro h
        exact absurd h (by simp)
      · rintro ⟨j, hkj, hj, _⟩
        omega

lemma arrivalWait_iff (b : ℚ) (obs : Nat → ℚ) :
    arrivalWait b obs = true ↔ ∃ j, 250 * j < 15000 ∧ b + 1 / 10 < obs j := by
  rw [arrivalWait, arrivalWaitLoop_iff b obs 61 0 (by omega)]
  constructor
  · rintro ⟨j, _, hj, ho⟩
    exact ⟨j, hj, ho⟩
  · rintro ⟨j, hj, ho⟩
    exact ⟨j, Nat.zero_le j, hj, ho⟩

lemma drainWait_iff (obs : Nat → ℚ) :
    drainWait obs = true ↔ ∃ j, 100 * j < 60000 ∧ obs j ≤ 1 / 2 := by
  rw [drainWait, drainWaitLoop_iff obs 601 0 (by omega)]
  constructor
  · rintro ⟨j, _, hj, ho⟩
    exact ⟨j, hj, ho⟩
  · rintro ⟨j, hj, ho⟩
    exact ⟨j, Nat.zero_le j, hj, ho⟩

/-! ## Claims -/

/-- C1 counterexample: delivering snapshots with id sequence s1, s2, s1
forwards id s1 to segmentation twice.  The detector remembers only the last
processed id (lines 184-185), so an id already processed is processed again
as soon as a different id intervenes — refuting "a snapshot id already
processed is never processed again even if other ids arrive in between". -/
theorem c1_dedup_counterexample :
    ((run initState [Action.deliver snapA true VoiceStyle.natural,
        Action.deliver snapB true VoiceStyle.natural,
        Action.deliver snapA true VoiceStyle.natural]).countP
      (fun e => match e with
        | Event.segmented id _ => id == "s1"
        | _ => false)) = 2 := by
  decide

/-- C1 amended: a delivered snapshot is handed to segmentation exactly when
its text is non-empty and its id differs from the immediately previously
processed id, and the remembered id is then replaced; consecutive
redeliveries of the same id (from either the poll or the push path) are
no-ops, but an id may be processed again after a different id intervenes. -/
theorem c1_dedup_amended (d : Transcript) (conn : Bool) (st : VoiceStyle) (s : BridgeState) :
    (d.full_transcript_text = "" ∨ s.lastProcessedId = some d.id →
      step s (Action.deliver d conn st) = ([], s))
    ∧ (d.full_transcript_text ≠ "" → s.lastProcessedId ≠ some d.id →
        ∃ evts s', step s (Action.deliver d conn st)
            = (Event.segmented d.id (segmentText d.full_transcript_text) :: evts, s')
          ∧ s'.lastProcessedId = some d.id) := by
  constructor
  · intro h
    by_cases h0 : d.full_transcript_text = ""
    · simp [step, processNewData, h0]
    · have hdup : s.lastProcessedId = some d.id := by
        rcases h with h0' | hdup
        · exact absurd h0' h0
        · exact hdup
      simp [step, processNewData, h0, hdup]
  · intro h0 hdup
    simp only [step, processNewData, if_neg h0, if_neg hdup]
    by_cases hlen : 0 < (segmentText d.full_transcript_text).length
    · rw [if_pos hlen]
      exact ⟨_, _, rfl, invokeLoop_lastProcessedId conn st _⟩
    · rw [if_neg hlen]
      exact ⟨[], _, rfl, rfl⟩

/-- C1 witness: a redelivery of the last processed id is a strict no-op. -/
theorem c1_dedup_amended_witness :
    step { initState with lastProcessedId := some "s1" }
        (Action.deliver snapA true VoiceStyle.natural)
      = ([], { initState with lastProcessedId := some "s1" }) :=
  (c1_dedup_amended snapA true VoiceStyle.natural
    { initState with lastProcessedId := some "s1" }).1 (Or.inr rfl)

/-- C2: invoking the drain loop while it is already running is a no-op
(guarded by the `isProcessing` flag), and over every machine run from the
initial state the trace alternates strictly: between any two sends there is a
completion of the drain-wait step for the prior item. -/
theorem c2_single_flight :
    (∀ (s : BridgeState) (conn : Bool) (st : VoiceStyle),
        s.isProcessing = true → step s (Action.invoke conn st) = ([], s))
    ∧ (∀ acts : List Action, altOk (run initState acts) false = true) := by
  constructor
  · intro s conn st hp
    simp [step, invokeLoop, hp]
  · intro acts
    exact run_altOk acts initState rfl

/-- C2 witness: re-entrant invocation at a concrete busy state is a no-op,
and a concrete delivery run alternates. -/
theorem c2_single_flight_witness :
    step { initState with isProcessing := true } (Action.invoke true VoiceStyle.natural)
        = ([], { initState with isProcessing := true })
      ∧ altOk (run initState [Action.deliver snapA true VoiceStyle.natural,
          Action.waitDone true true VoiceStyle.natural "es"]) false = true :=
  ⟨c2_single_flight.1 { initState with isProcessing := true } true VoiceStyle.natural rfl,
    c2_single_flight.2 [Action.deliver snapA true VoiceStyle.natural,
      Action.waitDone true true VoiceStyle.natural "es"]⟩

/-- C3 counterexample: snapshot "A\nB" is delivered, segment A dispatched;
at the resumption the client is disconnected, so the drain aborts with item B
abandoned in the queue — but a later loop invocation (here a direct invoke,
in the source the line-178 kick after reconnect or any later snapshot
delivery) dispatches B.  This refutes "the abandoned queue items are lost:
they are never dispatched afterwards (no requeue, no later resumption)". -/
theorem c3_lost_items_counterexample :
    run initState [Action.deliver snapAB true VoiceStyle.natural,
        Action.waitDone true false VoiceStyle.natural "es"]
      = [Event.segmented "s1" ["A", "B"], Event.send "default" "A",
         Event.arrivalDone, Event.drainDone]
    ∧ (runState initState [Action.deliver snapAB true VoiceStyle.natural,
        Action.waitDone true false VoiceStyle.natural "es"]).queue
      = [⟨"B", some snapAB, some "1"⟩]
    ∧ Event.send "default" "B" ∈ run initState
        [Action.deliver snapAB true VoiceStyle.natural,
         Action.waitDone true false VoiceStyle.natural "es",
         Action.invoke true VoiceStyle.natural] := by
  refine ⟨by decide, by decide, by decide⟩

/-- C3 amended: when the client is not connected at the top of a drain
iteration, the loop aborts with no dispatch, clears the processing flag and
returns to idle, and does not requeue — but the abandoned items remain in the
queue, and the next invocation of the drain loop while connected dispatches
the abandoned head item. -/
theorem c3_disconnect_abort_amended (st st2 : VoiceStyle) (s : BridgeState)
    (item : QueueItem) (rest : List QueueItem) (hq : s.queue = item :: rest)
    (hdisp : trimStr (scriptText st2 (stripSpeaker item.text).2) ≠ "") :
    (syncDrain false st s).1 = []
    ∧ (syncDrain false st s).2.queue = item :: rest
    ∧ (syncDrain false st s).2.isProcessing = false
    ∧ (syncDrain false st s).2.phase = Phase.idle
    ∧ (invokeLoop true st2 ((syncDrain false st s).2)).1
        = [Event.send (stripSpeaker item.text).1
            (scriptText st2 (stripSpeaker item.text).2)] := by
  have hsync : syncGo false st s.queue s.turnCtx = ⟨[], item :: rest, s.turnCtx, .exited⟩ := by
    rw [hq]
    rfl
  have habort : syncDrain false st s
      = ([], { s with queue := item :: rest, turnCtx := s.turnCtx,
                      isProcessing := false, phase := .idle }) := by
    unfold syncDrain
    rw [hsync]
  rw [habort]
  refine ⟨rfl, rfl, rfl, rfl, ?_⟩
  show (invokeLoop true st2 _).1 = _
  unfold invokeLoop
  rw [if_neg (by simp)]
  unfold syncDrain
  rw [show syncGo true st2 (item :: rest) s.turnCtx
      = ⟨[Event.send (stripSpeaker item.text).1 (scriptText st2 (stripSpeaker item.text).2)],
          rest, item.turnId, .suspended item⟩ from by simp [syncGo, hdisp]]

/-- C3 witness: the amended behavior at a concrete one-item queue. -/
theorem c3_disconnect_abort_amended_witness :
    (invokeLoop true VoiceStyle.natural
        ((syncDrain false VoiceStyle.natural
          { initState with queue := [⟨"B", some snapAB, some "1"⟩] }).2)).1
      = [Event.send "default" "B"] :=
  (c3_disconnect_abort_amended VoiceStyle.natural VoiceStyle.natural
    { initState with queue := [⟨"B", some snapAB, some "1"⟩] }
    ⟨"B", some snapAB, some "1"⟩ [] rfl (by decide)).2.2.2.2

/-- C4: for a dispatched item the drain iteration emits the send, both wait
completions, then exactly the commit-gated persistence records, then
continues with the rest of the queue; a record is persisted iff the item has
a snapshot reference and the trimmed translation buffer is non-empty; the
synthetic filler never persists; and the persistence outcome changes nothing
in the trace (beyond its own flag), state or remaining queue. -/
theorem c4_commit_gating (env : Env) (i : Nat) (s : OrchState) (item : QueueItem)
    (rest : List QueueItem) (hconn : env.connected i = true)
    (hdisp : trimStr (scriptText (env.style i) (stripSpeaker item.text).2) ≠ "") :
    (drainQueue env i (item :: rest) s).1
        = Event.send (stripSpeaker item.text).1
              (scriptText (env.style i) (stripSpeaker item.text).2)
          :: Event.arrivalDone :: Event.drainDone
          :: (recsFor item (env.translation i) (env.language i) (env.persistOk i)
              ++ (drainQueue env (i + 1) rest ⟨none, env.translation i⟩).1)
    ∧ (∀ (it : QueueItem) (buf lang : String) (ok : Bool),
        recsFor it buf lang ok ≠ [] ↔ it.refData.isSome = true ∧ trimStr buf ≠ "")
    ∧ (∀ (buf lang : String) (ok : Bool), recsFor fillerItem buf lang ok = [])
    ∧ (∀ f : Nat → Bool,
        (drainQueue { env with persistOk := f } i (item :: rest) s).1.map eraseOk
            = (drainQueue env i (item :: rest) s).1.map eraseOk
          ∧ (drainQueue { env with persistOk := f } i (item :: rest) s).2
            = (drainQueue env i (item :: rest) s).2) :=
  ⟨congrArg Prod.fst (drainQueue_dispatch env i s item rest hconn hdisp),
    recsFor_ne_nil_iff,
    fun _ _ _ => rfl,
    fun f => drainQueue_persistOk_irrelevant env f (item :: rest) i s⟩

/-- C4 witness: a concrete dispatched item with a snapshot reference and a
non-empty translation persists exactly one record. -/
theorem c4_commit_gating_witness :
    (drainQueue envDram 0 [⟨"Hello", some snapA, some "7"⟩] ⟨none, ""⟩).1
      = Event.send "default" "(slowly) Hello ... (long pause)"
        :: Event.arrivalDone :: Event.drainDone
        :: [Event.persistRec "m" "u" "Hello" "hola" "es" true] :=
  (c4_commit_gating envDram 0 ⟨none, ""⟩ ⟨"Hello", some snapA, some "7"⟩ [] rfl (by decide)).1

/-- C5: dispatch order equals queue order (the send trace of a connected
drain pass is the order-preserving image of the queue), queue order equals
segmentation order (filtering the fillers out of the enqueued items yields
exactly the segment list), and segmentation order equals the specification's
source paragraph order (split on newline boundaries, trim, drop empties). -/
theorem c5_ordering (env : Env) (hconn : ∀ j, env.connected j = true)
    (q : List QueueItem) (i : Nat) (s : OrchState) (d : Transcript)
    (segs : List String) (count n : Nat) (text : String) :
    sendsOf (drainQueue env i q s).1
        = (List.enumFrom i q).filterMap (fun pr =>
            if trimStr (scriptText (env.style pr.1) (stripSpeaker pr.2.text).2) = "" then none
            else some (Event.send (stripSpeaker pr.2.text).1
              (scriptText (env.style pr.1) (stripSpeaker pr.2.text).2)))
    ∧ ((enqueueSegments d segs count n).1.filter (fun it => it.refData.isSome)).map
        (fun it => it.text) = segs
    ∧ segmentText text = paragraphsSpec text :=
  ⟨drainQueue_sends env hconn q i s, enqueueSegments_real d segs count n,
    segmentText_agrees text⟩

/-- C5 witness: a concrete two-speaker queue dispatches in queue order,
regardless of target channel. -/
theorem c5_ordering_witness :
    sendsOf (drainQueue envDram 0
        [⟨"Male 1: Hi", some snapA, some "0"⟩, ⟨"Hello", some snapA, some "1"⟩]
        ⟨none, ""⟩).1
      = [Event.send "Male 1" "(slowly) Hi ... (long pause)",
         Event.send "default" "(slowly) Hello ... (long pause)"] := by
  rw [(c5_ordering envDram (fun _ => rfl)
      [⟨"Male 1: Hi", some snapA, some "0"⟩, ⟨"Hello", some snapA, some "1"⟩]
      0 ⟨none, ""⟩ snapA [] 0 0 "").1]
  decide

/-- C6 counterexample: a dispatched real segment whose tag-stripped text is
the literal "(clears throat)" is sent verbatim under the dramatic style, not
wrapped to "(slowly) (clears throat) ... (long pause)" — the claim's
universal "for every dispatched segment" fails on the literal-text
exemption (line 114). -/
theorem c6_style_wrapping_counterexample :
    (drainQueue envDram 0 [⟨"(clears throat)", some snapA, some "4"⟩] ⟨none, ""⟩).1.head?
        = some (Event.send "default" "(clears throat)")
    ∧ styleWrapSpec VoiceStyle.dramatic "(clears throat)"
        = "(slowly) (clears throat) ... (long pause)"
    ∧ Event.send "default" "(clears throat)"
        ≠ Event.send "default" "(slowly) (clears throat) ... (long pause)" := by
  exact ⟨by decide, by decide, by decide⟩

/-- C6 amended: for every dispatched segment whose tag-stripped text is not
the literal "(clears throat)", the text sent to the channel is the
tag-stripped text wrapped per the style active at dispatch time, and the
code's wrapping agrees with the specification's style table on every such
text: breathy gives "(soft inhale) <text> ... (pause)", dramatic
"(slowly) <text> ... (long pause)", enthusiastic prefixes "(excitedly) ",
formal prefixes "(professionally) ", conversational prefixes "(casually) ",
natural dispatches unchanged. -/
theorem c6_style_wrapping (env : Env) (i : Nat) (s : OrchState) (item : QueueItem)
    (rest : List QueueItem) (hconn : env.connected i = true)
    (hnf : (stripSpeaker item.text).2 ≠ "(clears throat)")
    (hdisp : trimStr (scriptText (env.style i) (stripSpeaker item.text).2) ≠ "") :
    (drainQueue env i (item :: rest) s).1.head?
        = some (Event.send (stripSpeaker item.text).1
            (styleWrapSpec (env.style i) (stripSpeaker item.text).2))
    ∧ (∀ (st : VoiceStyle) (t : String), t ≠ "(clears throat)" →
        scriptText st t = styleWrapSpec st t) := by
  have hagree : ∀ (st : VoiceStyle) (t : String), t ≠ "(clears throat)" →
      scriptText st t = styleWrapSpec st t := by
    intro st t ht
    unfold scriptText styleWrapSpec
    rw [if_neg ht]
    cases st <;> rfl
  refine ⟨?_, hagree⟩
  rw [congrArg Prod.fst (drainQueue_dispatch env i s item rest hconn hdisp)]
  rw [List.head?_cons, hagree (env.style i) (stripSpeaker item.text).2 hnf]

/-- C6 witness: dramatic style wraps a concrete dispatched segment as the
specification's table dictates. -/
theorem c6_style_wrapping_witness :
    (drainQueue envDram 0 [⟨"Hello", some snapA, some "7"⟩] ⟨none, ""⟩).1.head?
      = some (Event.send "default" "(slowly) Hello ... (long pause)") :=
  (c6_style_wrapping envDram 0 ⟨none, ""⟩ ⟨"Hello", some snapA, some "7"⟩ []
    rfl (by decide) (by decide)).1

/-- C7: enqueueing the segments of a snapshot produces, in order, one real
item per segment (raw text, snapshot reference, fresh turn id) with the
synthetic filler — literal text "(clears throat)", null snapshot reference,
no turn id — inserted immediately after every segment whose cumulative
session count is a multiple of three; the count accumulates across calls and
is never reset; and the filler text is exempt from style wrapping under
every style. -/
theorem c7_filler_injection (d : Transcript) (segs : List String) (count n : Nat) :
    (enqueueSegments d segs count n).1
        = (List.enumFrom 0 segs).flatMap (fun pr =>
            (⟨pr.2, some d, some (Nat.repr (n + pr.1))⟩ : QueueItem)
              :: (if (count + pr.1 + 1) % 3 = 0 then [fillerItem] else []))
    ∧ (enqueueSegments d segs count n).2.1 = count + segs.length
    ∧ fillerItem.refData = none ∧ fillerItem.turnId = none
    ∧ (∀ st : VoiceStyle, scriptText st "(clears throat)" = "(clears throat)") :=
  ⟨enqueueSegments_closed d segs count n, enqueueSegments_count d segs count n, rfl, rfl,
    fun st => by unfold scriptText; rw [if_pos rfl]⟩

/-- C8: the arrival wait polls the end-of-queue timestamp at 250 ms steps
within a 15 s budget and succeeds exactly when some in-budget poll exceeds
the baseline by more than 0.1 s; the drain wait polls the buffered duration
at 100 ms steps within a 60 s budget and succeeds exactly when some
in-budget poll is at or below 0.5 s; past either budget the wait returns
instead of polling on; and the drain loop advances to the rest of the queue
after the waits regardless of their outcome. -/
theorem c8_wait_bounds (b : ℚ) (obs obs2 : Nat → ℚ) (env : Env) (i : Nat)
    (s : OrchState) (item : QueueItem) (rest : List QueueItem)
    (hconn : env.connected i = true)
    (hdisp : trimStr (scriptText (env.style i) (stripSpeaker item.text).2) ≠ "") :
    (arrivalWait b obs = true ↔ ∃ j, 250 * j < 15000 ∧ b + 1 / 10 < obs j)
    ∧ (drainWait obs2 = true ↔ ∃ j, 100 * j < 60000 ∧ obs2 j ≤ 1 / 2)
    ∧ (∀ fuel k, 15000 ≤ 250 * k → arrivalWaitLoop b obs fuel k = false)
    ∧ (∀ fuel k, 60000 ≤ 100 * k → drainWaitLoop obs2 fuel k = false)
    ∧ (drainQueue env i (item :: rest) s).2
        = (drainQueue env (i + 1) rest ⟨none, env.translation i⟩).2 :=
  ⟨arrivalWait_iff b obs, drainWait_iff obs2,
    arrivalWaitLoop_timeout b obs, drainWaitLoop_timeout obs2,
    by rw [drainQueue_dispatch env i s item rest hconn hdisp]⟩

/-- C8 witness: with an already-drained buffer the drain wait succeeds at
the first poll. -/
theorem c8_wait_bounds_witness :
    drainWait (fun _ => 0) = true :=
  (c8_wait_bounds 0 (fun _ => 1) (fun _ => 0) envDram 0 ⟨none, ""⟩
      ⟨"Hello", some snapA, some "7"⟩ [] rfl (by decide)).2.1.mpr
    ⟨0, by decide, le_of_lt one_half_pos⟩

/-- C9 counterexample: a real segment "Male 1:" (empty after tag stripping)
under the natural style is dropped — no send, no persistence, buffer
untouched — but the orchestrator's state does change: the active turn
context was already set to the dropped item's turn id at the top of the
iteration (line 103 precedes the empty check at line 125) and is not
restored.  This refutes "without ... any change to the orchestrator's
state (… no change to the active turn-context)". -/
theorem c9_empty_drop_counterexample :
    drainQueue envNat 0 [⟨"Male 1:", some snapA, some "t1"⟩] ⟨none, ""⟩
        = ([], ⟨some "t1", ""⟩, [])
    ∧ (some "t1" : Option String) ≠ none := by
  exact ⟨by decide, by decide⟩

/-- C9 amended: a dequeued item whose style-wrapped text trims to empty is
dropped and the loop continues with the next item — no send, no channel
query, no wait, no persistence, and the translation buffer is not reset —
but the active turn context has already been set to the dropped item's turn
id and keeps that value into the next iteration. -/
theorem c9_empty_drop_amended (env : Env) (i : Nat) (s : OrchState) (item : QueueItem)
    (rest : List QueueItem) (hconn : env.connected i = true)
    (hempty : trimStr (scriptText (env.style i) (stripSpeaker item.text).2) = "") :
    drainQueue env i (item :: rest) s
      = drainQueue env (i + 1) rest ⟨item.turnId, s.buffer⟩ :=
  drainQueue_drop env i s item rest hconn hempty

/-- C9 witness: the amended drop equation at the concrete dropped item. -/
theorem c9_empty_drop_amended_witness :
    drainQueue envNat 0 [⟨"Male 1:", some snapA, some "t1"⟩] ⟨none, ""⟩
      = drainQueue envNat 1 [] ⟨some "t1", ""⟩ :=
  c9_empty_drop_amended envNat 0 ⟨none, ""⟩ ⟨"Male 1:", some snapA, some "t1"⟩ []
    rfl (by decide)

/-- C10: the style-wrapping exemption is decided by literal text comparison
against "(clears throat)": any item whose tag-stripped text equals it —
including a real segment carrying a snapshot reference — is dispatched
verbatim under every style, and such a real segment can still persist a
record: its commit gate reduces to the translation buffer being non-empty. -/
theorem c10_literal_exemption (env : Env) (i : Nat) (s : OrchState) (raw : String)
    (r : Transcript) (tid : Option String) (rest : List QueueItem)
    (hconn : env.connected i = true)
    (hstrip : (stripSpeaker raw).2 = "(clears throat)") :
    (∀ st : VoiceStyle, scriptText st (stripSpeaker raw).2 = (stripSpeaker raw).2)
    ∧ (drainQueue env i ((⟨raw, some r, tid⟩ : QueueItem) :: rest) s).1.head?
        = some (Event.send (stripSpeaker raw).1 "(clears throat)")
    ∧ (recsFor ⟨raw, some r, tid⟩ (env.translation i) (env.language i) (env.persistOk i) ≠ []
        ↔ trimStr (env.translation i) ≠ "") := by
  have hexempt : ∀ st : VoiceStyle, scriptText st (stripSpeaker raw).2 = (stripSpeaker raw).2 := by
    intro st
    rw [hstrip]
    unfold scriptText
    rw [if_pos rfl]
  have hdisp : trimStr (scriptText (env.style i)
      (stripSpeaker (⟨raw, some r, tid⟩ : QueueItem).text).2) ≠ "" := by
    show trimStr (scriptText (env.style i) (stripSpeaker raw).2) ≠ ""
    rw [hexempt, hstrip]
    decide
  refine ⟨hexempt, ?_, ?_⟩
  · rw [congrArg Prod.fst
      (drainQueue_dispatch env i s ⟨raw, some r, tid⟩ rest hconn hdisp)]
    rw [List.head?_cons]
    show some (Event.send (stripSpeaker raw).1
      (scriptText (env.style i) (stripSpeaker raw).2)) = _
    rw [hexempt, hstrip]
  · rw [recsFor_ne_nil_iff]
    simp

/-- C10 witness: a real tagged segment "Male 1: (clears throat)" dispatches
verbatim to the Male 1 channel even under the dramatic style. -/
theorem c10_literal_exemption_witness :
    (drainQueue envDram 0 [⟨"Male 1: (clears throat)", some snapA, some "9"⟩] ⟨none, ""⟩).1.head?
      = some (Event.send "Male 1" "(clears throat)") :=
  (c10_literal_exemption envDram 0 ⟨none, ""⟩ "Male 1: (clears throat)" snapA (some "9") []
    rfl (by decide)).2.1

end OrbitzTranslator
